import Mathlib

/-!
Shallow embedding of the core retrieval pipeline of a Google Classroom MCP
server written in Rust (files `classroom.rs`, `drive.rs`, `error.rs`).

Modelling conventions:
* Rust `String`/`&str` values are `List Char`; UTF-8 byte arithmetic is made
  explicit through `charBytes`/`utf8Len`.
* `serde_json::Value` is the inductive `JVal`.
* Remote API calls are fields of environment records (`ClassroomEnv`,
  `DriveEnv`) returning `Except`; the async orchestration is sequential in the
  source, so plain state passing is faithful.
* The moka memory cache is a key-indexed partial map `MemCache`; the disk cache
  is a path-indexed partial map `DiskFs`.
-/

/-- JSON documents, the embedding of `serde_json::Value`. -/
inductive JVal where
  | null : JVal
  | bool : Bool → JVal
  | num : Int → JVal
  | str : List Char → JVal
  | arr : List JVal → JVal
  | obj : List (List Char × JVal) → JVal

/-- The embedding of `AppError` from `error.rs`. -/
inductive AppError where
  | notAuthenticated
  | credentialRead (msg : List Char)
  | googleApi (msg : List Char)
  | driveApi (msg : List Char)
  | invalidInput (msg : List Char)
  | oauth2 (msg : List Char)
  | io (msg : List Char)
  | json (msg : List Char)
deriving DecidableEq, Repr

deriving instance DecidableEq for Except

/-- Character data of a string literal. -/
def strOf (s : String) : List Char := s.data

/-- Rust `str::trim`: drop whitespace from both ends. -/
def trimChars (s : List Char) : List Char :=
  ((s.dropWhile Char.isWhitespace).reverse.dropWhile Char.isWhitespace).reverse

/-- Suffix immediately after the first occurrence of `pat` in `s`
(mirrors Rust `str::find` followed by slicing past the pattern; the
patterns used are ASCII, so byte positions coincide with char positions). -/
def afterFirst (pat : List Char) : List Char → Option (List Char)
  | [] => none
  | c :: cs =>
    if List.isPrefixOf pat (c :: cs) then some ((c :: cs).drop pat.length)
    else afterFirst pat cs

/-- Characters accepted by the bare-ID validation in `parse_file_id`
(Rust `char::is_alphanumeric`, here restricted to the ASCII classifier,
plus `-` and `_`). -/
def isIdChar (c : Char) : Bool := c.isAlphanum || c = '-' || c = '_'

/-- The `id=` fallback of `parse_file_id`: everything after the first
`id=` up to the next `&`; empty extraction falls through to the
unrecognized-URL error. -/
def idParamOrErr (input : List Char) : Except AppError (List Char) :=
  match afterFirst (strOf "id=") input with
  | some after =>
    let i := after.takeWhile (fun c => c ≠ '&')
    if i ≠ [] then .ok i
    else .error (.invalidInput (strOf "could not extract file ID from URL: " ++ input))
  | none => .error (.invalidInput (strOf "could not extract file ID from URL: " ++ input))

/-- The function `parse_file_id` from `drive.rs`: extract a Drive file ID from a URL or
validate a bare ID. -/
def parse_file_id (raw : List Char) : Except AppError (List Char) :=
  let input := trimChars raw
  if input = [] then
    .error (.invalidInput (strOf "file_id_or_url cannot be empty"))
  else if List.isPrefixOf (strOf "http://") input ∨ List.isPrefixOf (strOf "https://") input then
    match afterFirst (strOf "/d/") input with
    | some after =>
      let i := after.takeWhile (fun c => c ≠ '/')
      if i ≠ [] then .ok i
      else idParamOrErr input
    | none => idParamOrErr input
  else if input.all isIdChar then .ok input
  else .error (.invalidInput (strOf "invalid file ID or URL: " ++ input))

/-- UTF-8 encoded size in bytes of one character. -/
def charBytes (c : Char) : Nat :=
  if c.toNat < 0x80 then 1
  else if c.toNat < 0x800 then 2
  else if c.toNat < 0x10000 then 3
  else 4

/-- UTF-8 byte length of a string (`str::len` in Rust). -/
def utf8Len (s : List Char) : Nat := (s.map charBytes).sum

/-- Rust `str::is_char_boundary`: `n` is a sum of the UTF-8 sizes of a
prefix of `s` (positions past the end are not boundaries). -/
def isCharBoundary (s : List Char) (n : Nat) : Bool :=
  match s with
  | [] => n = 0
  | c :: cs => n = 0 || (charBytes c ≤ n && isCharBoundary cs (n - charBytes c))

/-- The boundary-search loop of `truncate_content`:
`while end > 0 && !text.is_char_boundary(end) { end -= 1 }`. -/
def findBoundary (s : List Char) : Nat → Nat
  | 0 => 0
  | n + 1 => if isCharBoundary s (n + 1) then n + 1 else findBoundary s n

/-- Byte-slice `text[..n]` as a char list: the longest char prefix whose
UTF-8 size fits in `n` bytes (coincides with the Rust slice whenever `n`
is a char boundary, the only way the source uses it). -/
def takeBytes : List Char → Nat → List Char
  | [], _ => []
  | c :: cs, n => if charBytes c ≤ n then c :: takeBytes cs (n - charBytes c) else []

/-- The constant `MAX_CONTENT_BYTES` from `drive.rs`. -/
def MAX_CONTENT_BYTES : Nat := 100 * 1024

/-- The fixed marker appended by `truncate_content`. -/
def TRUNCATION_MARKER : List Char := strOf "\n\n[... content truncated at 100 KB ...]"

/-- The function `truncate_content` from `drive.rs`: cut at the last char boundary at or
before `MAX_CONTENT_BYTES` and append the marker; short input is returned
unchanged with flag `false`. -/
def truncate_content (text : List Char) : List Char × Bool :=
  if utf8Len text ≤ MAX_CONTENT_BYTES then (text, false)
  else (takeBytes text (findBoundary text MAX_CONTENT_BYTES) ++ TRUNCATION_MARKER, true)

/-- The moka in-memory cache, keyed by strings (`memory_cache` fields). -/
def MemCache := List Char → Option JVal

/-- Insertion, `memory_cache.insert(key, value)`. -/
def MemCache.insert (m : MemCache) (k : List Char) (v : JVal) : MemCache :=
  fun q => if q = k then some v else m q

/-- The on-disk cache: file path to file content (`std::fs` view). -/
def DiskFs := List Char → Option (List Char)

/-- Rust `std::fs::write` (failures are logged and ignored in the source, so the
successful world is modelled). -/
def DiskFs.write (fs : DiskFs) (p v : List Char) : DiskFs :=
  fun q => if q = p then some v else fs q

/-- The `serde_json` string round-trip plumbing used by the disk tier:
`from_str` may fail (returns `none`), `to_string_pretty` may fail
(returns `none`, in which case the write is skipped). -/
structure JsonCodec where
  parse : List Char → Option JVal
  render : JVal → Option (List Char)

/-- One coursework item as the source sees it: its optional `id` field and
its `serde_json::to_value` encoding. -/
structure CourseWork where
  id : Option (List Char)
  val : JVal

/-- The remote Classroom API collaborator. Each call either fails with an
upstream message (`e.to_string()`) or yields the already-decoded payload:
lists come back as their `serde_json` encodings (for these derive-Serialize
payloads the encoding cannot fail, so the `unwrap_or` fallbacks in the
source collapse). -/
structure ClassroomEnv where
  getCourse : List Char → Except (List Char) JVal
  listAnnouncements : List Char → Except (List Char) (List JVal)
  listCourseWork : List Char → Except (List Char) (List CourseWork)
  listSubmissions : List Char → List Char → Except (List Char) (List JVal)
  listMaterials : List Char → Except (List Char) (List JVal)
  listTopics : List Char → Except (List Char) (List JVal)

/-- Cache key of `list_courses`. -/
def coursesKey : List Char := strOf "courses"

/-- Cache key of `get_course_details` (`format!("course_details:{course_id}")`). -/
def courseDetailsKey (cid : List Char) : List Char := strOf "course_details:" ++ cid

/-- Cache key of `get_assignments` (`format!("assignments:{course_id}")`). -/
def assignmentsKey (cid : List Char) : List Char := strOf "assignments:" ++ cid

/-- Cache key of `get_course_materials` (`format!("materials_{course_id}")`). -/
def materialsKey (cid : List Char) : List Char := strOf "materials_" ++ cid

/-- Cache key of `get_course_topics` (`format!("topics_{course_id}")`). -/
def topicsKey (cid : List Char) : List Char := strOf "topics_" ++ cid

/-- The five cache-keyed operations of `ClassroomClient`, with their
parameters. -/
inductive CacheOp where
  | courses
  | courseDetails (courseId : List Char)
  | assignments (courseId : List Char)
  | materials (courseId : List Char)
  | topics (courseId : List Char)
deriving DecidableEq

/-- The cache key each operation computes. -/
def cacheKey : CacheOp → List Char
  | .courses => coursesKey
  | .courseDetails cid => courseDetailsKey cid
  | .assignments cid => assignmentsKey cid
  | .materials cid => materialsKey cid
  | .topics cid => topicsKey cid

/-- The function `get_course_details` from `classroom.rs`: memory-cache check, primary
`courses().get` call (fatal on failure), dependent announcements list
(degraded to `json!([])` on failure), composite assembly, cache insert. -/
def get_course_details (env : ClassroomEnv) (mem : MemCache) (cid : List Char) :
    Except AppError JVal × MemCache :=
  let key := courseDetailsKey cid
  match mem key with
  | some cached => (.ok cached, mem)
  | none =>
    match env.getCourse cid with
    | .error e => (.error (.googleApi e), mem)
    | .ok course =>
      let announcements :=
        match env.listAnnouncements cid with
        | .ok xs => JVal.arr xs
        | .error _ => JVal.arr []
      let value := JVal.obj
        [(strOf "course", course), (strOf "announcements", announcements)]
      (.ok value, mem.insert key value)

/-- One entry of the `assignments` array:
`json!({"courseWork": ..., "submissions": ...})`. -/
def assignmentEntry (cw : CourseWork) (subs : JVal) : JVal :=
  JVal.obj [(strOf "courseWork", cw.val), (strOf "submissions", subs)]

/-- The per-item submissions call of `get_assignments`: the fetched list on
success, `json!([])` on failure. -/
def fetchSubmissions (env : ClassroomEnv) (cid cwId : List Char) : JVal :=
  match env.listSubmissions cid cwId with
  | .ok xs => JVal.arr xs
  | .error _ => JVal.arr []

/-- The first loop of `get_assignments` over `course_work_list.iter().take(5)`:
items whose `id` is `None` are skipped (`continue`); the others get a
submissions fetch. -/
def detailedEntries (env : ClassroomEnv) (cid : List Char) :
    List CourseWork → List JVal
  | [] => []
  | cw :: rest =>
    match cw.id with
    | none => detailedEntries env cid rest
    | some cwId =>
      assignmentEntry cw (fetchSubmissions env cid cwId) :: detailedEntries env cid rest

/-- The function `get_assignments` from `classroom.rs`: memory-cache check, primary
`courses().get` call (fatal), coursework list (degraded to an empty list
on failure), per-item submissions for the first five items, empty
placeholder `[]` for the rest, composite assembly, cache insert. -/
def get_assignments (env : ClassroomEnv) (mem : MemCache) (cid : List Char) :
    Except AppError JVal × MemCache :=
  let key := assignmentsKey cid
  match mem key with
  | some cached => (.ok cached, mem)
  | none =>
    match env.getCourse cid with
    | .error e => (.error (.googleApi e), mem)
    | .ok course =>
      let cwList :=
        match env.listCourseWork cid with
        | .ok xs => xs
        | .error _ => []
      let assignments :=
        detailedEntries env cid (cwList.take 5)
          ++ (cwList.drop 5).map (fun cw => assignmentEntry cw (JVal.arr []))
      let value := JVal.obj
        [(strOf "course", course), (strOf "assignments", JVal.arr assignments)]
      (.ok value, mem.insert key value)

/-- Disk path of a cache key: `cache_dir.join(format!("{key}.json"))`,
modelled relative to the fixed cache directory. -/
def diskPath (key : List Char) : List Char := key ++ strOf ".json"

/-- The function `read_disk_cache` from `classroom.rs`: a missing file or unparsable
content yields `None`; nothing on this path writes or deletes. -/
def read_disk_cache (codec : JsonCodec) (fs : DiskFs) (key : List Char) : Option JVal :=
  match fs (diskPath key) with
  | none => none
  | some data =>
    match codec.parse data with
    | some v => some v
    | none => none

/-- The function `write_disk_cache` from `classroom.rs`: serialize and write; a
serialization failure skips the write. -/
def write_disk_cache (codec : JsonCodec) (fs : DiskFs) (key : List Char) (v : JVal) :
    DiskFs :=
  match codec.render v with
  | some data => fs.write (diskPath key) data
  | none => fs

/-- The function `get_course_materials` from `classroom.rs`: memory tier, then disk tier
(backfilling memory on a hit), then the remote fetch (fatal on failure),
storing the result in both tiers. -/
def get_course_materials (env : ClassroomEnv) (codec : JsonCodec)
    (mem : MemCache) (fs : DiskFs) (cid : List Char) :
    Except AppError JVal × MemCache × DiskFs :=
  let key := materialsKey cid
  match mem key with
  | some cached => (.ok cached, mem, fs)
  | none =>
    match read_disk_cache codec fs key with
    | some cached => (.ok cached, mem.insert key cached, fs)
    | none =>
      match env.listMaterials cid with
      | .error e =>
        (.error (.googleApi
          (strOf "failed to fetch course materials for " ++ cid ++ strOf ": " ++ e)),
         mem, fs)
      | .ok xs =>
        let value := JVal.arr xs
        (.ok value, mem.insert key value, write_disk_cache codec fs key value)

/-- File metadata as requested by `read_material`
(`fields=id,name,mimeType,size,modifiedTime,webViewLink`); `modifiedTime`
is carried already rendered to RFC 3339. -/
structure FileMeta where
  id : Option (List Char)
  name : Option (List Char)
  mimeType : Option (List Char)
  size : Option Int
  modifiedTime : Option (List Char)
  webViewLink : Option (List Char)

/-- The remote Drive collaborator. `getFileMetadata` fails with the
upstream message; `exportFile`/`downloadFile` collapse the remote call,
body collection and UTF-8 decoding of `export_file`/`download_file`, whose
failures all surface as `DriveApi` errors. -/
structure DriveEnv where
  getFileMetadata : List Char → Except (List Char) FileMeta
  exportFile : List Char → List Char → Except AppError (List Char)
  downloadFile : List Char → Except AppError (List Char)

/-- Rust `str::contains` for the 403 check. -/
def containsSub (s pat : List Char) : Bool := (afterFirst pat s).isSome

/-- The metadata-error mapping of `read_material`: a 403 / insufficient-scope
message gets the re-authentication hint, anything else passes through. -/
def wrapMetadataError (fid msg : List Char) : AppError :=
  if containsSub msg (strOf "403") || containsSub msg (strOf "insufficient") then
    .driveApi (strOf "Access denied for file " ++ fid ++
      strOf ". You may need to re-authenticate with `cargo run -- auth` to grant the drive.readonly scope. Original error: "
      ++ msg)
  else .driveApi msg

/-- The MIME dispatch of `read_material`: Workspace types are exported,
textual types downloaded, everything else gets no content fetch. Returns
`(content, export_mime)`. -/
def fetchContent (env : DriveEnv) (fid mime : List Char) :
    Except AppError (Option (List Char) × Option (List Char)) :=
  if mime = strOf "application/vnd.google-apps.document" then
    (env.exportFile fid (strOf "text/plain")).map
      (fun t => (some t, some (strOf "text/plain")))
  else if mime = strOf "application/vnd.google-apps.spreadsheet" then
    (env.exportFile fid (strOf "text/csv")).map
      (fun t => (some t, some (strOf "text/csv")))
  else if mime = strOf "application/vnd.google-apps.presentation" then
    (env.exportFile fid (strOf "text/plain")).map
      (fun t => (some t, some (strOf "text/plain")))
  else if List.isPrefixOf (strOf "text/") mime
      ∨ mime = strOf "application/json"
      ∨ mime = strOf "application/xml"
      ∨ mime = strOf "application/javascript"
      ∨ mime = strOf "application/x-yaml"
      ∨ mime = strOf "application/csv" then
    (env.downloadFile fid).map (fun t => (some t, none))
  else .ok (none, none)

/-- Encoding of optional strings into JSON fields. -/
def optStr : Option (List Char) → JVal
  | none => JVal.null
  | some s => JVal.str s

/-- Encoding of the optional numeric `size` field. -/
def optNum : Option Int → JVal
  | none => JVal.null
  | some n => JVal.num n

/-- The `metadata` object assembled by `read_material`. -/
def metaJson (file : FileMeta) : JVal :=
  JVal.obj
    [(strOf "id", optStr file.id),
     (strOf "name", optStr file.name),
     (strOf "mimeType", optStr file.mimeType),
     (strOf "size", optNum file.size),
     (strOf "modifiedTime", optStr file.modifiedTime),
     (strOf "webViewLink", optStr file.webViewLink)]

/-- The note for the metadata-only branch
(`"Binary file ({mime_type}) — content not fetched. Name: {file_name}. ..."`). -/
def binaryNote (mimeType fileName : List Char) : List Char :=
  strOf "Binary file (" ++ mimeType ++ strOf ") — content not fetched. Name: " ++
    fileName ++ strOf ". Use the webViewLink to open in browser."

/-- The note for truncated content
(`format!("Content truncated to {MAX_CONTENT_BYTES} bytes.")`). -/
def truncationNote : List Char := strOf "Content truncated to 102400 bytes."

/-- The document `read_material` assembles before JSON encoding. -/
structure ContentResult where
  metadata : JVal
  content : Option (List Char)
  exportedAs : Option (List Char)
  truncated : Bool
  note : List Char

/-- The JSON encoding of a `ContentResult`
(the `json!({...})` at the end of `read_material`). -/
def encodeResult (r : ContentResult) : JVal :=
  JVal.obj
    [(strOf "metadata", r.metadata),
     (strOf "content", optStr r.content),
     (strOf "exportedAs", optStr r.exportedAs),
     (strOf "truncated", JVal.bool r.truncated),
     (strOf "note", JVal.str r.note)]

/-- The fetch path of `read_material` after a cache miss: metadata fetch
(fatal), MIME dispatch (export/download failures fatal), truncation, and
note assembly. -/
def resolve_material (env : DriveEnv) (fid : List Char) :
    Except AppError ContentResult :=
  match env.getFileMetadata fid with
  | .error e => .error (wrapMetadataError fid e)
  | .ok file =>
    let mime := file.mimeType.getD (strOf "unknown")
    let fname := file.name.getD (strOf "unknown")
    match fetchContent env fid mime with
    | .error e => .error e
    | .ok (contentOpt, exportMime) =>
      let cv :=
        match contentOpt with
        | some text => let p := truncate_content text; (some p.1, p.2)
        | none => (none, false)
      let note :=
        match cv.1 with
        | none => binaryNote mime fname
        | some _ => cond cv.2 truncationNote []
      .ok { metadata := metaJson file, content := cv.1, exportedAs := exportMime,
            truncated := cv.2, note := note }

/-- The remote calls `read_material` can issue, for stating that a path
performs none. -/
inductive DriveCall where
  | metadata (fid : List Char)
  | exportCall (fid mime : List Char)
  | download (fid : List Char)
deriving DecidableEq

/-- Remote calls issued by the MIME dispatch. -/
def fetchTrace (fid mime : List Char) : List DriveCall :=
  if mime = strOf "application/vnd.google-apps.document" then
    [.exportCall fid (strOf "text/plain")]
  else if mime = strOf "application/vnd.google-apps.spreadsheet" then
    [.exportCall fid (strOf "text/csv")]
  else if mime = strOf "application/vnd.google-apps.presentation" then
    [.exportCall fid (strOf "text/plain")]
  else if List.isPrefixOf (strOf "text/") mime
      ∨ mime = strOf "application/json"
      ∨ mime = strOf "application/xml"
      ∨ mime = strOf "application/javascript"
      ∨ mime = strOf "application/x-yaml"
      ∨ mime = strOf "application/csv" then
    [.download fid]
  else []

/-- Remote calls issued by the fetch path. -/
def resolveTrace (env : DriveEnv) (fid : List Char) : List DriveCall :=
  match env.getFileMetadata fid with
  | .error _ => [.metadata fid]
  | .ok file => .metadata fid :: fetchTrace fid (file.mimeType.getD (strOf "unknown"))

/-- The function `read_material` from `drive.rs`: identifier extraction (fatal on
failure, before any remote call), memory-cache check keyed by the extracted
ID, fetch path on a miss, cache insert on success. The third component
records the remote calls issued. -/
def read_material (env : DriveEnv) (mem : MemCache) (input : List Char) :
    Except AppError JVal × MemCache × List DriveCall :=
  match parse_file_id input with
  | .error e => (.error e, mem, [])
  | .ok fid =>
    match mem fid with
    | some cached => (.ok cached, mem, [])
    | none =>
      match resolve_material env fid with
      | .error e => (.error e, mem, resolveTrace env fid)
      | .ok r =>
        (.ok (encodeResult r), mem.insert fid (encodeResult r), resolveTrace env fid)

/-- Metadata of a sample binary file, used to instantiate theorems. -/
def sampleMeta : FileMeta :=
  { id := some (strOf "f1"), name := some (strOf "pic"),
    mimeType := some (strOf "image/png"), size := none,
    modifiedTime := none, webViewLink := none }

/-- A Drive collaborator that serves `sampleMeta` for every file. -/
def sampleDriveEnv : DriveEnv where
  getFileMetadata := fun _ => .ok sampleMeta
  exportFile := fun _ _ => .ok (strOf "exported")
  downloadFile := fun _ => .ok (strOf "downloaded")

/-- The `ContentResult` the fetch path produces for `sampleMeta`. -/
def samplePngResult : ContentResult :=
  { metadata := metaJson sampleMeta, content := none, exportedAs := none,
    truncated := false, note := binaryNote (strOf "image/png") (strOf "pic") }

/-- A Classroom collaborator whose every remote call fails. -/
def failingClassroomEnv : ClassroomEnv where
  getCourse := fun _ => .error (strOf "boom")
  listAnnouncements := fun _ => .error (strOf "down")
  listCourseWork := fun _ => .error (strOf "down")
  listSubmissions := fun _ _ => .error (strOf "down")
  listMaterials := fun _ => .error (strOf "down")
  listTopics := fun _ => .error (strOf "down")

/-- A Classroom collaborator returning a single coursework item that has no
`id` field. -/
def idlessEnv : ClassroomEnv where
  getCourse := fun _ => .ok JVal.null
  listAnnouncements := fun _ => .ok []
  listCourseWork := fun _ => .ok [{ id := none, val := JVal.null }]
  listSubmissions := fun _ _ => .ok []
  listMaterials := fun _ => .ok []
  listTopics := fun _ => .ok []

/-- Eight coursework items, all with ids. -/
def eightList : List CourseWork :=
  [{ id := some (strOf "a"), val := JVal.num 0 },
   { id := some (strOf "b"), val := JVal.num 1 },
   { id := some (strOf "c"), val := JVal.num 2 },
   { id := some (strOf "d"), val := JVal.num 3 },
   { id := some (strOf "e"), val := JVal.num 4 },
   { id := some (strOf "f"), val := JVal.num 5 },
   { id := some (strOf "g"), val := JVal.num 6 },
   { id := some (strOf "h"), val := JVal.num 7 }]

/-- A Classroom collaborator returning `eightList` as the coursework. -/
def eightEnv : ClassroomEnv where
  getCourse := fun _ => .ok JVal.null
  listAnnouncements := fun _ => .ok []
  listCourseWork := fun _ => .ok eightList
  listSubmissions := fun _ cwId => .ok [JVal.str cwId]
  listMaterials := fun _ => .ok []
  listTopics := fun _ => .ok []

/-- A codec whose parser rejects everything and whose renderer is constant. -/
def rejectingCodec : JsonCodec where
  parse := fun _ => none
  render := fun _ => some (strOf "rendered")

/-- The empty memory cache. -/
def emptyMem : MemCache := fun _ => none

/-- The empty disk cache. -/
def emptyFs : DiskFs := fun _ => none

/- ------------------------------------------------------------------ -/
/- Helper lemmas.                                                      -/
/- ------------------------------------------------------------------ -/

theorem utf8Len_append (a b : List Char) : utf8Len (a ++ b) = utf8Len a + utf8Len b := by
  simp [utf8Len]

theorem findBoundary_le (s : List Char) : ∀ n, findBoundary s n ≤ n
  | 0 => Nat.le_refl 0
  | n + 1 => by
    rw [findBoundary]
    split
    · exact Nat.le_refl _
    · exact (findBoundary_le s n).trans (Nat.le_succ n)

theorem utf8Len_takeBytes_le (s : List Char) : ∀ n, utf8Len (takeBytes s n) ≤ n := by
  induction s with
  | nil => intro n; simp [takeBytes, utf8Len]
  | cons c cs ih =>
    intro n
    rw [takeBytes]
    split
    · rename_i hcb
      have h1 := ih (n - charBytes c)
      simp only [utf8Len, List.map_cons, List.sum_cons] at h1 ⊢
      omega
    · simp [utf8Len]

theorem takeBytes_eq_take (s : List Char) : ∀ n, ∃ k, takeBytes s n = s.take k := by
  induction s with
  | nil => intro n; exact ⟨0, rfl⟩
  | cons c cs ih =>
    intro n
    rw [takeBytes]
    split
    · obtain ⟨k, hk⟩ := ih (n - charBytes c)
      exact ⟨k + 1, by simp [List.take_succ_cons, hk]⟩
    · exact ⟨0, rfl⟩

theorem keyPrefixNe {p q : List Char} (i : Nat) (hip : i < p.length) (hiq : i < q.length)
    (hne : p[i]? ≠ q[i]?) (a b : List Char) : p ++ a ≠ q ++ b := by
  intro h
  apply hne
  have h2 := congrArg (fun l => l[i]?) h
  simp only [List.getElem?_append] at h2
  rwa [if_pos hip, if_pos hiq] at h2

/- ------------------------------------------------------------------ -/
/- Claim theorems.                                                     -/
/- ------------------------------------------------------------------ -/

/-- C3: for every input string, `truncate_content` returns a string whose
byte length is at most 100 KB (102400 bytes) plus the marker length, that
is a full-character prefix of the original followed by the marker (never
splitting a multi-byte character) or the original itself, and that equals
the original with flag `false` exactly when the original is at most
100 KB. -/
theorem truncate_content_safety : ∀ text : List Char,
    utf8Len (truncate_content text).1 ≤ MAX_CONTENT_BYTES + utf8Len TRUNCATION_MARKER
    ∧ ((truncate_content text).1 = text ∨
        ∃ k, (truncate_content text).1 = text.take k ++ TRUNCATION_MARKER)
    ∧ (truncate_content text = (text, false) ↔ utf8Len text ≤ MAX_CONTENT_BYTES) := by
  intro text
  by_cases h : utf8Len text ≤ MAX_CONTENT_BYTES
  · rw [truncate_content, if_pos h]
    exact ⟨h.trans (Nat.le_add_right _ _), Or.inl rfl, by simp [h]⟩
  · rw [truncate_content, if_neg h]
    refine ⟨?_, Or.inr ?_, ?_⟩
    · rw [utf8Len_append]
      have h1 := utf8Len_takeBytes_le text (findBoundary text MAX_CONTENT_BYTES)
      have h2 := findBoundary_le text MAX_CONTENT_BYTES
      omega
    · obtain ⟨k, hk⟩ := takeBytes_eq_take text (findBoundary text MAX_CONTENT_BYTES)
      exact ⟨k, by rw [hk]⟩
    · constructor
      · intro hh
        exact absurd (congrArg Prod.snd hh) (by simp)
      · intro hh
        exact absurd hh h

/-- Instance of C3's theorem at a concrete short input. -/
theorem truncate_content_safety_witness :
    utf8Len (truncate_content (strOf "hello")).1 ≤
      MAX_CONTENT_BYTES + utf8Len TRUNCATION_MARKER
    ∧ ((truncate_content (strOf "hello")).1 = strOf "hello" ∨
        ∃ k, (truncate_content (strOf "hello")).1 = (strOf "hello").take k ++ TRUNCATION_MARKER)
    ∧ (truncate_content (strOf "hello") = (strOf "hello", false) ↔
        utf8Len (strOf "hello") ≤ MAX_CONTENT_BYTES) :=
  truncate_content_safety (strOf "hello")

/-- C4: the literal extraction table of `parse_file_id`, and the precedence
of the `/d/` pattern: whenever the `/d/` pattern yields a non-empty
segment, that segment is the result, regardless of any `id=` pattern. -/
theorem parse_file_id_table :
    parse_file_id (strOf "https://docs.google.com/document/d/ABC123/edit") =
      .ok (strOf "ABC123")
    ∧ parse_file_id (strOf "https://drive.google.com/open?id=XYZ789") =
      .ok (strOf "XYZ789")
    ∧ parse_file_id (strOf "ABC-123_xyz") = .ok (strOf "ABC-123_xyz")
    ∧ parse_file_id (strOf "") =
      .error (.invalidInput (strOf "file_id_or_url cannot be empty"))
    ∧ parse_file_id (strOf "https://example.com/nopattern") =
      .error (.invalidInput (strOf "could not extract file ID from URL: https://example.com/nopattern"))
    ∧ (∀ raw after,
        (List.isPrefixOf (strOf "http://") (trimChars raw)
          ∨ List.isPrefixOf (strOf "https://") (trimChars raw)) →
        afterFirst (strOf "/d/") (trimChars raw) = some after →
        after.takeWhile (fun c => c ≠ '/') ≠ [] →
        parse_file_id raw = .ok (after.takeWhile (fun c => c ≠ '/'))) := by
  refine ⟨by decide, by decide, by decide, by decide, by decide, ?_⟩
  intro raw after hpre hfind hne
  have hni : ¬ trimChars raw = [] := by
    intro h0
    rw [h0] at hpre
    rcases hpre with h | h <;> exact absurd h (by decide)
  rw [parse_file_id, if_neg hni, if_pos hpre, hfind]
  dsimp only
  rw [if_pos hne]

/-- Instance of C4's precedence clause: a URL containing both `/d/` and
`id=` patterns resolves through `/d/`. -/
theorem parse_file_id_table_witness :
    parse_file_id (strOf "https://a.com/d/AAA/x?id=BBB") = .ok (strOf "AAA") :=
  parse_file_id_table.2.2.2.2.2 (strOf "https://a.com/d/AAA/x?id=BBB")
    (strOf "AAA/x?id=BBB") (by decide) (by decide) (by decide)

/-- C5 fails as stated: an identifier extracted from a `/d/` URL segment is
returned without character validation, so it can contain characters
outside alphanumeric, `-`, `_` (here `?`). -/
theorem parse_file_id_unvalidated_url_cex :
    parse_file_id (strOf "https://drive.google.com/d/ab?x/view") = .ok (strOf "ab?x")
    ∧ (strOf "ab?x").all isIdChar = false := by
  constructor
  · decide
  · decide

/-- C5 amended: every identifier produced from a bare (non-URL) input
consists only of alphanumeric characters, `-`, `_`, and equals the trimmed
input; URL-extracted identifiers are not character-validated. -/
theorem bare_id_validated :
    ∀ raw i,
      ¬ (List.isPrefixOf (strOf "http://") (trimChars raw)
          ∨ List.isPrefixOf (strOf "https://") (trimChars raw)) →
      parse_file_id raw = .ok i →
      i.all isIdChar = true ∧ i = trimChars raw := by
  intro raw i hurl h
  rw [parse_file_id] at h
  by_cases h0 : trimChars raw = []
  · rw [if_pos h0] at h
    exact absurd h (by simp)
  · rw [if_neg h0, if_neg hurl] at h
    by_cases hall : (trimChars raw).all isIdChar = true
    · rw [if_pos hall] at h
      have hi : trimChars raw = i := by
        injection h
      exact ⟨hi ▸ hall, hi.symm⟩
    · rw [if_neg hall] at h
      exact absurd h (by simp)

/-- Instance of C5's amended theorem at a bare identifier. -/
theorem bare_id_validated_witness :
    (strOf "ABC-123_xyz").all isIdChar = true
    ∧ strOf "ABC-123_xyz" = trimChars (strOf "ABC-123_xyz") :=
  bare_id_validated (strOf "ABC-123_xyz") (strOf "ABC-123_xyz") (by decide) (by decide)

/-- C7: the cache key computation is deterministic in the operation and its
parameter, and injective across the five keyed operations — equal
operation/parameter pairs give equal keys, distinct pairs give distinct
keys, with no collision between operations for any course identifiers. -/
theorem cacheKey_deterministic_injective :
    (∀ a b : CacheOp, a = b → cacheKey a = cacheKey b)
    ∧ (∀ a b : CacheOp, cacheKey a = cacheKey b → a = b) := by
  constructor
  · intro a b h
    rw [h]
  · intro a b h
    cases a <;> cases b <;>
      simp only [cacheKey, coursesKey, courseDetailsKey, assignmentsKey,
        materialsKey, topicsKey] at h ⊢ <;>
      first
      | rfl
      | exact congrArg _ (List.append_cancel_left h)
      | exact absurd h (keyPrefixNe 0 (by decide) (by decide) (by decide) _ _)
      | (rw [← List.append_nil (strOf "courses")] at h
         exact absurd h (keyPrefixNe 0 (by decide) (by decide) (by decide) _ _))
      | (rw [← List.append_nil (strOf "courses")] at h
         exact absurd h (keyPrefixNe 6 (by decide) (by decide) (by decide) _ _))

/-- Instance of C7's injectivity at a concrete pair. -/
theorem cacheKey_deterministic_injective_witness :
    CacheOp.topics (strOf "T1") = CacheOp.topics (strOf "T1") :=
  cacheKey_deterministic_injective.2 (CacheOp.topics (strOf "T1"))
    (CacheOp.topics (strOf "T1")) rfl

/-- The first loop of `get_assignments` produces one entry per coursework
item whose `id` is present, whatever the submissions calls return. -/
theorem detailedEntries_length (env : ClassroomEnv) (cid : List Char) :
    ∀ l : List CourseWork,
      (detailedEntries env cid l).length =
        (l.filter (fun cw => cw.id.isSome)).length := by
  intro l
  induction l with
  | nil => rfl
  | cons cw rest ih =>
    cases hid : cw.id <;>
      simp [detailedEntries, hid, List.filter_cons, ih]

/-- When every item has an `id`, the first loop of `get_assignments` is a
plain map over the items, in order. -/
theorem detailedEntries_eq_map (env : ClassroomEnv) (cid : List Char) :
    ∀ l : List CourseWork, (∀ cw ∈ l, cw.id.isSome) →
      detailedEntries env cid l =
        l.map (fun cw => assignmentEntry cw (fetchSubmissions env cid (cw.id.getD []))) := by
  intro l
  induction l with
  | nil => intro _; rfl
  | cons cw rest ih =>
    intro h
    obtain ⟨i, hi⟩ := Option.isSome_iff_exists.mp (h cw (List.mem_cons_self _ _))
    simp only [detailedEntries, hi, List.map_cons, Option.getD_some]
    rw [ih (fun c hc => h c (List.mem_cons_of_mem _ hc))]

/-- C1: in both composite fetches, a primary `getCourse` failure is fatal
and surfaces the upstream message as a remote-API error with the cache
untouched; a dependent-call failure (announcements, coursework list, or a
per-item submissions call) degrades that contribution to an empty JSON
array while the operation succeeds, with entries for all items that could
produce one still present. -/
theorem partial_failure_policy :
    (∀ env mem cid e, mem (courseDetailsKey cid) = none →
      env.getCourse cid = .error e →
      get_course_details env mem cid = (.error (.googleApi e), mem))
    ∧ (∀ env mem cid course e, mem (courseDetailsKey cid) = none →
      env.getCourse cid = .ok course →
      env.listAnnouncements cid = .error e →
      (get_course_details env mem cid).1 =
        .ok (JVal.obj [(strOf "course", course), (strOf "announcements", JVal.arr [])]))
    ∧ (∀ env mem cid e, mem (assignmentsKey cid) = none →
      env.getCourse cid = .error e →
      get_assignments env mem cid = (.error (.googleApi e), mem))
    ∧ (∀ env mem cid course e, mem (assignmentsKey cid) = none →
      env.getCourse cid = .ok course →
      env.listCourseWork cid = .error e →
      (get_assignments env mem cid).1 =
        .ok (JVal.obj [(strOf "course", course), (strOf "assignments", JVal.arr [])]))
    ∧ (∀ env cid cwId e, env.listSubmissions cid cwId = .error e →
      fetchSubmissions env cid cwId = JVal.arr [])
    ∧ (∀ env cid l, (detailedEntries env cid l).length =
      (l.filter (fun cw => cw.id.isSome)).length)
    ∧ (∀ env mem cid course l, mem (assignmentsKey cid) = none →
      env.getCourse cid = .ok course →
      env.listCourseWork cid = .ok l →
      ∃ entries, (get_assignments env mem cid).1 =
          .ok (JVal.obj [(strOf "course", course), (strOf "assignments", JVal.arr entries)])
        ∧ entries.length =
            ((l.take 5).filter (fun cw => cw.id.isSome)).length + (l.drop 5).length) := by
  refine ⟨?_, ?_, ?_, ?_, ?_, ?_, ?_⟩
  · intro env mem cid e hmem hc
    simp only [get_course_details, hmem, hc]
  · intro env mem cid course e hmem hc hann
    simp only [get_course_details, hmem, hc, hann]
  · intro env mem cid e hmem hc
    simp only [get_assignments, hmem, hc]
  · intro env mem cid course e hmem hc hcw
    simp only [get_assignments, hmem, hc, hcw, detailedEntries, List.take_nil,
      List.drop_nil, List.map_nil, List.append_nil]
  · intro env cid cwId e h
    simp [fetchSubmissions, h]
  · intro env cid l
    exact detailedEntries_length env cid l
  · intro env mem cid course l hmem hc hl
    refine ⟨detailedEntries env cid (l.take 5)
      ++ (l.drop 5).map (fun cw => assignmentEntry cw (JVal.arr [])), ?_, ?_⟩
    · simp only [get_assignments, hmem, hc, hl]
    · rw [List.length_append, detailedEntries_length, List.length_map, List.length_drop]

/-- Instance of C1's fatal-primary-call clause at a failing collaborator. -/
theorem partial_failure_policy_witness :
    get_course_details failingClassroomEnv emptyMem (strOf "c1") =
      (.error (.googleApi (strOf "boom")), emptyMem) :=
  partial_failure_policy.1 failingClassroomEnv emptyMem (strOf "c1") (strOf "boom") rfl rfl

/-- C2 fails as stated: a coursework item among the first five whose `id`
field is absent is skipped by `continue` and dropped from the composite
result — here one input item yields an empty assignments array. -/
theorem assignments_drop_idless_cex :
    idlessEnv.listCourseWork (strOf "c") = .ok [{ id := none, val := JVal.null }]
    ∧ (get_assignments idlessEnv emptyMem (strOf "c")).1 =
        .ok (JVal.obj [(strOf "course", JVal.null), (strOf "assignments", JVal.arr [])]) :=
  ⟨rfl, rfl⟩

/-- C2 amended: when every item among the first five has an `id`, the
composite result has one entry per input item in the original order — the
first five with the per-item submissions detail, every later item with an
empty submissions placeholder — and no item is dropped; items among the
first five lacking an `id` are dropped. -/
theorem assignments_item_cap :
    ∀ env mem cid course l, mem (assignmentsKey cid) = none →
      env.getCourse cid = .ok course →
      env.listCourseWork cid = .ok l →
      (∀ cw ∈ l.take 5, cw.id.isSome) →
      (get_assignments env mem cid).1 =
        .ok (JVal.obj [(strOf "course", course), (strOf "assignments", JVal.arr (
          (l.take 5).map (fun cw => assignmentEntry cw (fetchSubmissions env cid (cw.id.getD [])))
          ++ (l.drop 5).map (fun cw => assignmentEntry cw (JVal.arr []))))])
      ∧ ((l.take 5).map (fun cw => assignmentEntry cw (fetchSubmissions env cid (cw.id.getD [])))
          ++ (l.drop 5).map (fun cw => assignmentEntry cw (JVal.arr []))).length = l.length := by
  intro env mem cid course l hmem hc hl hids
  constructor
  · simp only [get_assignments, hmem, hc, hl]
    rw [detailedEntries_eq_map env cid (l.take 5) hids]
  · simp only [List.length_append, List.length_map, List.length_take, List.length_drop]
    omega

/-- Instance of C2's amended theorem at eight coursework items, all with
ids: eight entries, five detailed, three placeholders. -/
theorem assignments_item_cap_witness :
    (get_assignments eightEnv emptyMem (strOf "c")).1 =
      .ok (JVal.obj [(strOf "course", JVal.null), (strOf "assignments", JVal.arr (
        (eightList.take 5).map
          (fun cw => assignmentEntry cw (fetchSubmissions eightEnv (strOf "c") (cw.id.getD [])))
        ++ (eightList.drop 5).map (fun cw => assignmentEntry cw (JVal.arr []))))])
    ∧ ((eightList.take 5).map
          (fun cw => assignmentEntry cw (fetchSubmissions eightEnv (strOf "c") (cw.id.getD [])))
        ++ (eightList.drop 5).map (fun cw => assignmentEntry cw (JVal.arr []))).length
      = eightList.length :=
  assignments_item_cap eightEnv emptyMem (strOf "c") JVal.null eightList rfl rfl rfl
    (by decide)

/-- The metadata-only note is never the empty string. -/
theorem binaryNote_ne_nil (m n : List Char) : binaryNote m n ≠ [] := by
  intro h
  have h1 := (List.append_eq_nil.mp h).1
  have h2 := (List.append_eq_nil.mp h1).1
  have h3 := (List.append_eq_nil.mp h2).1
  have h4 := (List.append_eq_nil.mp h3).1
  exact absurd h4 (by decide)

/-- The truncation note is never the empty string. -/
theorem truncationNote_ne_nil : truncationNote ≠ [] := by decide

/-- C6: every `ContentResult` the fetch path produces has its `truncated`
flag and `note` set consistently — the note is the binary-not-fetched
message, the truncated-at-102400-bytes message, or empty; absent content
forces `truncated = false` and a binary note; an empty note means content
was fetched whole; and an `image/png` file yields absent content, flag
`false`, and a non-empty note. -/
theorem content_note_consistent :
    (∀ m n, binaryNote m n ≠ [])
    ∧ truncationNote ≠ []
    ∧ (∀ env fid r, resolve_material env fid = .ok r →
        ((r.content = none → r.truncated = false ∧ ∃ m n, r.note = binaryNote m n)
         ∧ (r.note = [] → r.content ≠ none ∧ r.truncated = false)
         ∧ (r.truncated = true → r.note = truncationNote)
         ∧ ((∃ m n, r.note = binaryNote m n) ∨ r.note = truncationNote ∨ r.note = [])))
    ∧ (∀ env fid file, env.getFileMetadata fid = .ok file →
        file.mimeType = some (strOf "image/png") →
        ∃ r, resolve_material env fid = .ok r
          ∧ r.content = none ∧ r.truncated = false ∧ r.note ≠ []) := by
  refine ⟨binaryNote_ne_nil, truncationNote_ne_nil, ?_, ?_⟩
  · intro env fid r h
    rw [resolve_material] at h
    cases hm : env.getFileMetadata fid with
    | error e => rw [hm] at h; exact absurd h (by simp)
    | ok file =>
      rw [hm] at h
      dsimp only at h
      cases hf : fetchContent env fid (file.mimeType.getD (strOf "unknown")) with
      | error e => rw [hf] at h; exact absurd h (by simp)
      | ok p =>
        rw [hf] at h
        obtain ⟨contentOpt, exportMime⟩ := p
        cases contentOpt with
        | none =>
          dsimp only at h
          injection h with h2
          subst h2
          refine ⟨fun _ => ⟨rfl, _, _, rfl⟩, fun hnote => ?_, fun ht => ?_, Or.inl ⟨_, _, rfl⟩⟩
          · exact absurd hnote (binaryNote_ne_nil _ _)
          · exact absurd ht (by simp)
        | some text =>
          dsimp only at h
          cases hb : (truncate_content text).2 with
          | false =>
            rw [hb] at h
            simp only [Bool.cond_false] at h
            injection h with h2
            subst h2
            exact ⟨fun hc => absurd hc (by simp), fun _ => ⟨by simp, rfl⟩,
              fun ht => absurd ht (by simp), Or.inr (Or.inr rfl)⟩
          | true =>
            rw [hb] at h
            simp only [Bool.cond_true] at h
            injection h with h2
            subst h2
            exact ⟨fun hc => absurd hc (by simp), fun hnote => absurd hnote truncationNote_ne_nil,
              fun _ => rfl, Or.inr (Or.inl rfl)⟩
  · intro env fid file hm hmime
    have hg : file.mimeType.getD (strOf "unknown") = strOf "image/png" := by
      rw [hmime]; rfl
    have hf : fetchContent env fid (strOf "image/png") = .ok (none, none) := rfl
    refine ⟨⟨metaJson file, none, none, false,
      binaryNote (strOf "image/png") (file.name.getD (strOf "unknown"))⟩, ?_, rfl, rfl,
      binaryNote_ne_nil _ _⟩
    rw [resolve_material, hm]
    dsimp only
    rw [hg, hf]

/-- Instance of C6's png clause at a collaborator serving `sampleMeta`. -/
theorem content_note_consistent_witness :
    ∃ r, resolve_material sampleDriveEnv (strOf "f1") = .ok r
      ∧ r.content = none ∧ r.truncated = false ∧ r.note ≠ [] :=
  content_note_consistent.2.2.2 sampleDriveEnv (strOf "f1") sampleMeta rfl rfl

/-- Looking up the just-inserted key in the memory cache. -/
theorem MemCache.insert_self (m : MemCache) (k : List Char) (v : JVal) :
    m.insert k v k = some v := by
  simp [MemCache.insert]

/-- Reading the just-written path from the disk state. -/
theorem DiskFs.write_self (fs : DiskFs) (p v : List Char) :
    fs.write p v p = some v := by
  simp [DiskFs.write]

/-- C8: a missing or unparsable disk cache file makes the disk-tier read
return absent rather than an error (and the read path never deletes); on
the two-tier read of `get_course_materials`, a memory miss with a disk hit
backfills the memory tier with the disk value and returns it with the disk
untouched, while a full miss fetches and stores the result in both
tiers. -/
theorem tiered_cache_policy :
    (∀ codec fs key, fs (diskPath key) = none →
      read_disk_cache codec fs key = none)
    ∧ (∀ codec fs key data, fs (diskPath key) = some data →
      codec.parse data = none → read_disk_cache codec fs key = none)
    ∧ (∀ env codec mem fs cid v, mem (materialsKey cid) = none →
      read_disk_cache codec fs (materialsKey cid) = some v →
      get_course_materials env codec mem fs cid =
        (.ok v, mem.insert (materialsKey cid) v, fs))
    ∧ (∀ env codec mem fs cid xs, mem (materialsKey cid) = none →
      read_disk_cache codec fs (materialsKey cid) = none →
      env.listMaterials cid = .ok xs →
      get_course_materials env codec mem fs cid =
        (.ok (JVal.arr xs), mem.insert (materialsKey cid) (JVal.arr xs),
         write_disk_cache codec fs (materialsKey cid) (JVal.arr xs))
      ∧ (mem.insert (materialsKey cid) (JVal.arr xs)) (materialsKey cid) =
          some (JVal.arr xs)
      ∧ ∀ data, codec.render (JVal.arr xs) = some data →
          (write_disk_cache codec fs (materialsKey cid) (JVal.arr xs))
            (diskPath (materialsKey cid)) = some data) := by
  refine ⟨?_, ?_, ?_, ?_⟩
  · intro codec fs key h
    simp only [read_disk_cache, h]
  · intro codec fs key data h hp
    simp only [read_disk_cache, h, hp]
  · intro env codec mem fs cid v hmem hd
    simp only [get_course_materials, hmem, hd]
  · intro env codec mem fs cid xs hmem hd hx
    refine ⟨?_, MemCache.insert_self mem _ _, ?_⟩
    · simp only [get_course_materials, hmem, hd, hx]
    · intro data hr
      rw [write_disk_cache, hr]
      exact DiskFs.write_self fs _ _

/-- Instance of C8's corruption-tolerance clause: an everything-rejecting
parser over an empty disk yields absent. -/
theorem tiered_cache_policy_witness :
    read_disk_cache rejectingCodec emptyFs (strOf "k") = none :=
  tiered_cache_policy.1 rejectingCodec emptyFs (strOf "k") rfl

/-- Every failure of the `id=` fallback is an `InvalidInput` error. -/
theorem idParamOrErr_error_invalid :
    ∀ s e, idParamOrErr s = .error e → ∃ m, e = .invalidInput m := by
  intro s e h
  rw [idParamOrErr] at h
  cases hf : afterFirst (strOf "id=") s with
  | none =>
    rw [hf] at h
    injection h with h2
    exact ⟨_, h2.symm⟩
  | some after =>
    rw [hf] at h
    dsimp only at h
    by_cases hne : after.takeWhile (fun c => c ≠ '&') ≠ []
    · rw [if_pos hne] at h
      exact absurd h (by simp)
    · rw [if_neg hne] at h
      injection h with h2
      exact ⟨_, h2.symm⟩

/-- Every failure of `parse_file_id` is an `InvalidInput` error. -/
theorem parse_file_id_error_invalid :
    ∀ raw e, parse_file_id raw = .error e → ∃ m, e = .invalidInput m := by
  intro raw e h
  rw [parse_file_id] at h
  by_cases h0 : trimChars raw = []
  · rw [if_pos h0] at h
    injection h with h2
    exact ⟨_, h2.symm⟩
  · rw [if_neg h0] at h
    by_cases hurl : List.isPrefixOf (strOf "http://") (trimChars raw)
        ∨ List.isPrefixOf (strOf "https://") (trimChars raw)
    · rw [if_pos hurl] at h
      cases hf : afterFirst (strOf "/d/") (trimChars raw) with
      | none =>
        rw [hf] at h
        exact idParamOrErr_error_invalid _ _ h
      | some after =>
        rw [hf] at h
        dsimp only at h
        by_cases hne : after.takeWhile (fun c => c ≠ '/') ≠ []
        · rw [if_pos hne] at h
          exact absurd h (by simp)
        · rw [if_neg hne] at h
          exact idParamOrErr_error_invalid _ _ h
    · rw [if_neg hurl] at h
      by_cases hall : (trimChars raw).all isIdChar = true
      · rw [if_pos hall] at h
        exact absurd h (by simp)
      · rw [if_neg hall] at h
        injection h with h2
        exact ⟨_, h2.symm⟩

/-- C9: whenever identifier extraction fails, the error is `InvalidInput`,
and `read_material` returns exactly that error having issued no remote
call and with the memory cache unchanged. -/
theorem invalid_input_no_remote :
    (∀ raw e, parse_file_id raw = .error e → ∃ m, e = .invalidInput m)
    ∧ (∀ env mem raw e, parse_file_id raw = .error e →
        read_material env mem raw = (.error e, mem, [])) := by
  refine ⟨parse_file_id_error_invalid, ?_⟩
  intro env mem raw e h
  simp only [read_material, h]

/-- Instance of C9 at the empty input string. -/
theorem invalid_input_no_remote_witness :
    read_material sampleDriveEnv emptyMem (strOf "") =
      (.error (.invalidInput (strOf "file_id_or_url cannot be empty")), emptyMem, []) :=
  invalid_input_no_remote.2 sampleDriveEnv emptyMem (strOf "")
    (.invalidInput (strOf "file_id_or_url cannot be empty")) (by decide)

/-- C10: `read_material` caches under the canonical extracted identifier:
after any successful call, a second call whose input extracts to the same
identifier is served from the cache — same document, cache unchanged, no
remote call. -/
theorem canonical_cache_key :
    ∀ env mem rawA rawB fid r mem2 tr,
      parse_file_id rawA = .ok fid →
      parse_file_id rawB = .ok fid →
      read_material env mem rawA = (.ok r, mem2, tr) →
      read_material env mem2 rawB = (.ok r, mem2, []) := by
  intro env mem rawA rawB fid r mem2 tr h1 h2 h3
  rw [read_material, h1] at h3
  dsimp only at h3
  rw [read_material, h2]
  dsimp only
  cases hm : mem fid with
  | some cached =>
    rw [hm] at h3
    simp only [Prod.mk.injEq, Except.ok.injEq] at h3
    obtain ⟨hr, hmm, -⟩ := h3
    subst hmm
    subst hr
    simp only [hm]
  | none =>
    rw [hm] at h3
    cases hres : resolve_material env fid with
    | error e =>
      rw [hres] at h3
      exact absurd h3 (by simp)
    | ok res =>
      rw [hres] at h3
      simp only [Prod.mk.injEq, Except.ok.injEq] at h3
      obtain ⟨hr, hmm, -⟩ := h3
      subst hmm
      subst hr
      simp only [MemCache.insert_self]

/-- Instance of C10: a document URL then the bare ID it contains; the
second call is a pure cache hit. -/
theorem canonical_cache_key_witness :
    read_material sampleDriveEnv
        (MemCache.insert emptyMem (strOf "XYZ") (encodeResult samplePngResult))
        (strOf "XYZ")
      = (.ok (encodeResult samplePngResult),
         MemCache.insert emptyMem (strOf "XYZ") (encodeResult samplePngResult), []) :=
  canonical_cache_key sampleDriveEnv emptyMem
    (strOf "https://docs.google.com/document/d/XYZ/edit") (strOf "XYZ") (strOf "XYZ")
    (encodeResult samplePngResult)
    (MemCache.insert emptyMem (strOf "XYZ") (encodeResult samplePngResult))
    [DriveCall.metadata (strOf "XYZ")]
    (by decide) (by decide) rfl
